import Mathlib

/-!
Verification of the Patricia Merkle Trie implementation
(`src/trie.rs`, `src/hash.rs`, `src/proof.rs`, `src/utils.rs`, `src/node.rs`,
`src/error.rs`) against its natural-language specification.

The Rust code is generic over key/value types `K, V` with
`K: AsRef<[u8]> + From<Vec<u8>>`, `V: AsRef<[u8]>`; the embedding instantiates
both at byte strings (`Vec<u8>`), as the crate's own tests and examples do.
Byte strings are `List Nat`.

Rust panics (out-of-bounds indexing `x[i]`, `Option::unwrap` on `None`) are
modelled as a distinguished error `TrieError.outOfBounds` in the same `Except`
monad: in the source no error is ever caught, so a panic and an `Err` propagate
identically to the top-level caller while remaining distinguishable here.

The auxiliary `node_store: HashMap<Vec<u8>, Node>` side table is populated on
every mutation but never read by any code path, so it is dropped from the
state; the `hash_node` calls that fed it are kept (as `let _ ← hashNode n`)
because their error effects propagate through `?` in the source.

`HashMap<u8, Box<Node>>` children maps are embedded as association lists with
(at most) unique keys.  Every observation the code makes of a children map is
iteration-order independent: lookup/insert/remove by key, length, emptiness,
extracting the sole element of a singleton map, and digesting (which sorts by
selector first), so the association-list representation is observationally
faithful.  The source's remove-then-recurse-then-reinsert pattern on children
is fused into a single structural traversal of the association list
(`insertChildren`, `deleteChild`, `getAtChild`, `proofChild`) so that all
functions are structurally recursive and hence computable by the kernel; each
fusion is noted at its definition and preserves the source's behaviour.
-/

namespace PMT

/-- Byte strings (`Vec<u8>` / `&[u8]` in the source): lists of byte values. -/
abbrev Bytes := List Nat

/-- SHA-256 (the external `sha2` crate, used via `Sha256::digest` in
`src/hash.rs`) modelled as an injective digest function: the digest is the
serialized preimage itself.  Every claim in scope observes digests only
through equality, and equal preimages give equal digests under both the model
and real SHA-256; distinct preimages give distinct digests under the model,
matching real SHA-256 on the assumption that no collision occurs.  The model
also preserves the one structural check the code makes on a digest
(`hash.is_empty()`), since every preimage built below starts with a domain
tag byte and is therefore non-empty exactly when real digests are. -/
def sha256 (data : Bytes) : Bytes := data

/-- Error enum `TrieError` of `src/error.rs`, plus `outOfBounds`, which models
a Rust panic (out-of-bounds index / `unwrap` on `None`) as explained in the
file header.  `invalidPfx` embeds the source's `InvalidPrefix` variant. -/
inductive TrieError where
  | invalidKey
  | nodeNotFound
  | invalidNodeType
  | keyTooShort
  | keyTooLong
  | invalidBranch
  | invalidPfx
  | corruptedBranch
  | invalidProof
  | outOfBounds
deriving DecidableEq

/-- The `Result<T>` alias of `src/error.rs`. -/
abbrev Result (α : Type) := Except TrieError α

/-- The length of the common prefix of two byte slices: `common_prefix` in
`src/utils.rs` (`a.iter().zip(b.iter()).take_while(|(x, y)| x == y).count()`).
The name carries a `_len` suffix purely for lexical reasons. -/
def common_prefix_len (a b : Bytes) : Nat :=
  ((a.zip b).takeWhile (fun p => p.1 == p.2)).length

/-- The function `to_nibbles` of `src/utils.rs`: despite its name it is the
identity on byte strings (whole bytes are the routing alphabet). -/
def to_nibbles (bytes : Bytes) : Result Bytes :=
  if bytes.isEmpty then .ok [] else .ok bytes

/-- The function `verify_key` of `src/utils.rs`. -/
def verify_key (key : Bytes) : Result Unit :=
  if key.isEmpty then .error .invalidKey
  else if key.length > 32 then .error .keyTooLong
  else .ok ()

/-- Rust slice indexing `l[i]`, which panics when out of bounds (modelled as
the `outOfBounds` error, see the file header). -/
def idx (l : Bytes) (i : Nat) : Result Nat :=
  if h : i < l.length then .ok (l.get ⟨i, h⟩) else .error .outOfBounds

/-- The function `hash_data` of `src/hash.rs`. -/
def hash_data (data : Bytes) : Bytes := sha256 data

/-- The function `hash_leaf` of `src/hash.rs`: domain tag `0x00`, then
length-prefixed key and value.  Rust's `key.len() as u8` truncates to a byte,
hence the `% 256`. -/
def hash_leaf (key value : Bytes) : Result Bytes :=
  if key.isEmpty then .error .invalidKey
  else .ok (sha256 ([0x00] ++ [key.length % 256] ++ key ++
    [value.length % 256] ++ value))

/-- The ordering used by `sort_by_key(|&(k, _)| k)` on `(selector, digest)`
pairs in `hash_branch`. -/
def keyLe (a b : Nat × Bytes) : Prop := a.1 ≤ b.1

instance : DecidableRel keyLe := fun a b => Nat.decLe a.1 b.1

instance : IsTotal (Nat × Bytes) keyLe := ⟨fun a b => Nat.le_total a.1 b.1⟩

instance : IsTrans (Nat × Bytes) keyLe := ⟨fun _ _ _ h h' => Nat.le_trans h h'⟩

/-- Embeds `sorted_children.sort_by_key(|&(k, _)| k)` of `src/hash.rs`.  The
source's sort is stable; on the duplicate-free selector lists produced by
hashing a children map, insertion sort by `keyLe` returns the same list as
any stable sort by selector. -/
def sortByKey (l : List (Nat × Bytes)) : List (Nat × Bytes) :=
  l.insertionSort keyLe

/-- The function `hash_branch` of `src/hash.rs`: domain tag `0x01`,
length-prefixed branch prefix, child count, each child as selector byte plus
length-prefixed digest in selector-sorted order, then the length-prefixed
value. -/
def hash_branch (pfx : Bytes) (children_data : List (Nat × Bytes))
    (value : Bytes) : Result Bytes :=
  if children_data.isEmpty then .error .invalidBranch
  else
    let sorted_children := sortByKey children_data
    .ok (sha256 ([0x01] ++ [pfx.length % 256] ++ pfx ++
      [sorted_children.length % 256] ++
      (sorted_children.map (fun kc => kc.1 :: kc.2.length % 256 :: kc.2)).flatten ++
      [value.length % 256] ++ value))

/-- The function `hash_empty` of `src/hash.rs`. -/
def hash_empty : Bytes := hash_data [0x02]

/-- The node enum of `src/node.rs`, instantiated at byte keys and optional
byte values (`Node<Vec<u8>, Option<Vec<u8>>>`, as the trie uses it).  The
`prefix` field is called `pfx` purely for lexical reasons; `children` is the
association-list embedding of `HashMap<u8, Box<Node>>` (see file header). -/
inductive Node where
  | empty : Node
  | leaf (key : Bytes) (value : Option Bytes) : Node
  | branch (pfx : Bytes) (children : List (Nat × Node)) (value : Option Bytes) : Node

/-- Lookup in a children map: `children.get(&k)`. -/
def mapGet : List (Nat × Node) → Nat → Option Node
  | [], _ => none
  | (k', v') :: rest, k => if k' = k then some v' else mapGet rest k

/-- Insert/replace in a children map: `children.insert(k, v)`. -/
def mapInsert : List (Nat × Node) → Nat → Node → List (Nat × Node)
  | [], k, v => [(k, v)]
  | (k', v') :: rest, k, v =>
      if k' = k then (k, v) :: rest else (k', v') :: mapInsert rest k v

mutual
/-- The method `hash_node` of `src/trie.rs` (the inherent method, which is the
one every call site resolves to): `hashChildren` embeds the
`children.iter().map(|(k, child)| (k, hash_node(child))).collect()` step.
Children are hashed in representation order and `hash_branch` sorts, exactly
as the source hashes `HashMap` iteration order and sorts. -/
def hashNode : Node → Result Bytes
  | .empty => .ok hash_empty
  | .leaf key value => do
      let key_nibbles ← to_nibbles key
      hash_leaf key_nibbles (value.getD [])
  | .branch pfx children value => do
      let prefix_nibbles ← to_nibbles pfx
      let child_hashes ← hashChildren children
      hash_branch prefix_nibbles child_hashes (value.getD [])

/-- Helper of `hashNode`; see its doc comment. -/
def hashChildren : List (Nat × Node) → Result (List (Nat × Bytes))
  | [] => .ok []
  | (k, c) :: rest => do
      let h ← hashNode c
      let hs ← hashChildren rest
      .ok ((k, h) :: hs)
end

/-- The trie state of `src/trie.rs` (`PatriciaMerkleTrie { root, node_store }`
with the never-read `node_store` dropped, see the file header). -/
structure Trie where
  root : Node

/-- The constructor `PatriciaMerkleTrie::new()`. -/
def Trie.new : Trie := ⟨Node.empty⟩

mutual
/-- The method `insert_at` of `src/trie.rs`, with `insertChildren` embedding
its remove-child / recurse / reinsert-child step as a structural traversal.

Two properties of the source are reproduced deliberately and exactly:
in the `Node::Branch` arm the pattern binding `value` SHADOWS the `value`
parameter (so every use of `value` inside that arm denotes the branch's own
value, not the value being inserted), and in the branch-split arm
`nibbles[prefix_len]` is indexed without a bounds check (the `idx` call,
which can produce the panic model `outOfBounds`). -/
def insertAt (node : Node) (key : Bytes) (nibbles : Bytes) (value : Option Bytes) :
    Result Node :=
  match node with
  | .empty => do
      let leaf := Node.leaf key value
      let _ ← hashNode leaf
      .ok leaf
  | .leaf existing_key existing_value => do
      let existing_nibbles ← to_nibbles existing_key
      let prefix_len := common_prefix_len existing_nibbles nibbles
      if prefix_len = existing_nibbles.length ∧ prefix_len = nibbles.length then do
        let leaf := Node.leaf key value
        let _ ← hashNode leaf
        .ok leaf
      else do
        let pfx := if prefix_len > 0 then existing_key.take prefix_len else []
        let children : List (Nat × Node) := []
        let children ←
          if prefix_len < existing_nibbles.length then do
            let existing_branch_key ← idx existing_nibbles prefix_len
            let existing_leaf := Node.leaf existing_key existing_value
            let _ ← hashNode existing_leaf
            .ok (mapInsert children existing_branch_key existing_leaf)
          else .ok children
        let children ←
          if prefix_len < nibbles.length then do
            let new_branch_key ← idx nibbles prefix_len
            let new_leaf := Node.leaf key value
            let _ ← hashNode new_leaf
            .ok (mapInsert children new_branch_key new_leaf)
          else .ok children
        let branch := Node.branch pfx children
          (if prefix_len = nibbles.length then value else none)
        let _ ← hashNode branch
        .ok branch
  | .branch pfx children value => do
      -- As in the source, the binder `value` shadows the `value` parameter
      -- for the remainder of this arm.
      let prefix_nibbles ← to_nibbles pfx
      let prefix_len := common_prefix_len prefix_nibbles nibbles
      if prefix_len < prefix_nibbles.length then do
        let new_pfx := pfx.take prefix_len
        let remaining_pfx := pfx.drop prefix_len
        let sub_branch := Node.branch remaining_pfx children value
        let _ ← hashNode sub_branch
        let s ← idx prefix_nibbles prefix_len
        let new_children := mapInsert [] s sub_branch
        let new_leaf := Node.leaf key value
        let _ ← hashNode new_leaf
        let s2 ← idx nibbles prefix_len
        let new_children := mapInsert new_children s2 new_leaf
        let new_branch := Node.branch new_pfx new_children none
        let _ ← hashNode new_branch
        .ok new_branch
      else do
        let remaining_nibbles := nibbles.drop prefix_len
        if remaining_nibbles.isEmpty then do
          let branch := Node.branch pfx children value
          let _ ← hashNode branch
          .ok branch
        else do
          let child_nibble ← idx remaining_nibbles 0
          let children' ← insertChildren children child_nibble key remaining_nibbles value
          let branch := Node.branch pfx children'
            (if remaining_nibbles.length = 1 then value else none)
          let _ ← hashNode branch
          .ok branch

/-- Fusion of `children.remove(&child_nibble).unwrap_or(Box::new(Node::Empty))`,
the recursive `insert_at` into that child, the `hash_node(&new_child)` for the
node store, and `children.insert(child_nibble, new_child)`.  In the absent
case the source recursion `insert_at(Empty, key, nibbles, value)` is inlined
(it builds `Leaf { key, value }` and hashes it); the second `hashNode` is the
caller's `hash_node(&new_child)`. -/
def insertChildren (children : List (Nat × Node)) (child_nibble : Nat)
    (key : Bytes) (nibbles : Bytes) (value : Option Bytes) :
    Result (List (Nat × Node)) :=
  match children with
  | [] => do
      let new_child := Node.leaf key value
      let _ ← hashNode new_child
      let _ ← hashNode new_child
      .ok [(child_nibble, new_child)]
  | (k, c) :: rest =>
      if k = child_nibble then do
        let new_child ← insertAt c key nibbles value
        let _ ← hashNode new_child
        .ok ((k, new_child) :: rest)
      else do
        let rest' ← insertChildren rest child_nibble key nibbles value
        .ok ((k, c) :: rest')
end

/-- The method `insert` of `src/trie.rs`: on any error the root is untouched
(here: no new trie is produced). -/
def insert (t : Trie) (key : Bytes) (value : Bytes) : Result Trie := do
  verify_key key
  let key_nibbles ← to_nibbles key
  let new_root ← insertAt t.root key key_nibbles (some value)
  .ok ⟨new_root⟩

mutual
/-- The method `get_at` of `src/trie.rs`, with `getAtChild` embedding the
`children.get(&child_nibble)` lookup followed by the recursive call (an
absent child falls through to `Ok(None)`, as in the source). -/
def get_at (node : Node) (nibbles : Bytes) (original_key : Bytes) :
    Result (Option Bytes) :=
  match node with
  | .empty => .ok none
  | .leaf key value => do
      let _existing_nibbles ← to_nibbles key
      if original_key = key then .ok value else .ok none
  | .branch pfx children value => do
      let prefix_nibbles ← to_nibbles pfx
      let prefix_len := common_prefix_len nibbles prefix_nibbles
      if prefix_len = prefix_nibbles.length then
        if nibbles.length = prefix_len then .ok value
        else if nibbles.length > prefix_len then do
          let child_nibble ← idx nibbles prefix_len
          getAtChild children child_nibble (nibbles.drop (prefix_len + 1)) original_key
        else .ok none
      else .ok none

/-- Helper of `get_at`; see its doc comment. -/
def getAtChild (children : List (Nat × Node)) (child_nibble : Nat)
    (nibbles : Bytes) (original_key : Bytes) : Result (Option Bytes) :=
  match children with
  | [] => .ok none
  | (k, c) :: rest =>
      if k = child_nibble then get_at c nibbles original_key
      else getAtChild rest child_nibble nibbles original_key
end

/-- The method `get` of `src/trie.rs`. -/
def get (t : Trie) (key : Bytes) : Result (Option Bytes) := do
  verify_key key
  let key_nibbles ← to_nibbles key
  get_at t.root key_nibbles key

mutual
/-- The method `delete_at` of `src/trie.rs`, with `deleteChild` embedding the
`children.remove(&child_nibble)` + recursive `delete_at` step as a structural
traversal (returning `none` when the selector is absent, otherwise the
children map without that entry, the rewritten child, and the deleted value).
The branch-collapse arm rebuilds a remaining leaf's key as
`prefix ++ [selector]`, exactly as the source does; the `[]` case of the
collapse `match` models the `.next().unwrap()` panic and is unreachable
behind the `length = 1` guard. -/
def delete_at (node : Node) (nibbles : Bytes) (original_key : Bytes) :
    Result (Node × Option Bytes) :=
  match node with
  | .empty => .ok (.empty, none)
  | .leaf key value => do
      let existing_nibbles ← to_nibbles key
      let original_nibbles ← to_nibbles original_key
      if existing_nibbles ≠ original_nibbles then
        .ok (.leaf key value, none)
      else
        .ok (.empty, value)
  | .branch pfx children value => do
      let prefix_nibbles ← to_nibbles pfx
      let common_len := common_prefix_len prefix_nibbles nibbles
      if common_len < prefix_nibbles.length then
        .ok (.branch pfx children value, none)
      else
        let remaining_nibbles := nibbles.drop common_len
        if remaining_nibbles.isEmpty then
          if children.isEmpty then .ok (.empty, value)
          else do
            let branch := Node.branch pfx children none
            let _ ← hashNode branch
            .ok (branch, value)
        else do
          let child_nibble ← idx remaining_nibbles 0
          match ← deleteChild children child_nibble (remaining_nibbles.drop 1) original_key with
          | none => .ok (.branch pfx children value, none)
          | some (children', new_child, deleted_value) =>
            match new_child with
            | .empty =>
              if children'.isEmpty ∧ value = none then
                .ok (.empty, deleted_value)
              else if children'.length = 1 ∧ value = none then
                match children' with
                | (remaining_nibble, remaining_child) :: _ =>
                  match remaining_child with
                  | .leaf _ child_value => do
                      let new_key := pfx ++ [remaining_nibble]
                      let leaf := Node.leaf new_key child_value
                      let _ ← hashNode leaf
                      .ok (leaf, deleted_value)
                  | .branch child_pfx child_children child_value => do
                      let new_pfx := pfx ++ [remaining_nibble] ++ child_pfx
                      let branch := Node.branch new_pfx child_children child_value
                      let _ ← hashNode branch
                      .ok (branch, deleted_value)
                  | .empty => .ok (.empty, deleted_value)
                | [] => .error .outOfBounds
              else do
                let branch := Node.branch pfx children' value
                let _ ← hashNode branch
                .ok (branch, deleted_value)
            | _ => do
              let children'' := mapInsert children' child_nibble new_child
              let branch := Node.branch pfx children'' value
              let _ ← hashNode branch
              .ok (branch, deleted_value)

/-- Helper of `delete_at`; see its doc comment. -/
def deleteChild (children : List (Nat × Node)) (child_nibble : Nat)
    (nibbles : Bytes) (original_key : Bytes) :
    Result (Option (List (Nat × Node) × Node × Option Bytes)) :=
  match children with
  | [] => .ok none
  | (k, c) :: rest =>
      if k = child_nibble then do
        let (new_child, deleted_value) ← delete_at c nibbles original_key
        .ok (some (rest, new_child, deleted_value))
      else do
        match ← deleteChild rest child_nibble nibbles original_key with
        | none => .ok none
        | some (rest', nc, dv) => .ok (some ((k, c) :: rest', nc, dv))
end

/-- The method `delete` of `src/trie.rs` (pure form: returns the new trie
together with the deleted value; on error the old root stands). -/
def delete (t : Trie) (key : Bytes) : Result (Trie × Option Bytes) := do
  verify_key key
  let key_nibbles ← to_nibbles key
  let (new_root, value) ← delete_at t.root key_nibbles key
  match new_root with
  | .empty => .ok (⟨Node.empty⟩, value)
  | _ => do
      let _ ← hashNode new_root
      .ok (⟨new_root⟩, value)

/-- The method `root_hash` of `src/trie.rs`. -/
def root_hash (t : Trie) : Result Bytes := hashNode t.root

/-- The struct `MerkleProof` of `src/proof.rs`. -/
structure MerkleProof where
  key : Bytes
  value : Bytes
  proof : List (Nat × Bytes)
deriving DecidableEq

mutual
/-- The method `generate_proof_at` of `src/proof.rs`, with `proofChild`
embedding the `children.get(&child_nibble)` lookup, the recursive call, and
the caller's `hash_node(child)`. -/
def generate_proof_at (node : Node) (nibbles : Bytes)
    (proof : List (Nat × Bytes)) : Result (Bytes × List (Nat × Bytes)) := do
  let node_hash ← hashNode node
  match node with
  | .empty => .ok ([], proof)
  | .leaf key value => do
      let existing_nibbles ← to_nibbles key
      if nibbles ≠ existing_nibbles then .ok ([], proof)
      else do
        let value_bytes := value.getD []
        let first_nibble ← idx existing_nibbles 0
        .ok (value_bytes, proof ++ [(first_nibble, node_hash)])
  | .branch pfx children value => do
      let prefix_nibbles ← to_nibbles pfx
      let common_len := common_prefix_len prefix_nibbles nibbles
      if common_len < prefix_nibbles.length then .ok ([], proof)
      else
        let remaining_nibbles := nibbles.drop common_len
        if remaining_nibbles.isEmpty then
          let value_bytes := value.getD []
          if value_bytes ≠ [] then .ok (value_bytes, proof ++ [(0, node_hash)])
          else .ok ([], proof)
        else do
          let child_nibble ← idx remaining_nibbles 0
          match ← proofChild children child_nibble (remaining_nibbles.drop 1) with
          | some (value_bytes, child_proof, child_hash) =>
            if value_bytes ≠ [] then
              .ok (value_bytes,
                proof ++ [(0, node_hash)] ++ [(child_nibble, child_hash)] ++ child_proof)
            else .ok ([], proof)
          | none => .ok ([], proof)

/-- Helper of `generate_proof_at`.  The source computes `hash_node(child)`
only after seeing a non-empty value; computing it right after the recursive
call is effect-identical, because `generate_proof_at child ..` itself begins
by computing (and propagating any error of) that same digest. -/
def proofChild (children : List (Nat × Node)) (child_nibble : Nat)
    (nibbles : Bytes) : Result (Option (Bytes × List (Nat × Bytes) × Bytes)) :=
  match children with
  | [] => .ok none
  | (k, c) :: rest =>
      if k = child_nibble then do
        let (value_bytes, child_proof) ← generate_proof_at c nibbles []
        let child_hash ← hashNode c
        .ok (some (value_bytes, child_proof, child_hash))
      else proofChild rest child_nibble nibbles
end

/-- The method `generate_proof` of `src/proof.rs`. -/
def generate_proof (t : Trie) (key : Bytes) : Result MerkleProof := do
  if key.isEmpty then .error .invalidKey
  else do
    let key_nibbles ← to_nibbles key
    let (value, proof) ← generate_proof_at t.root key_nibbles []
    if proof.isEmpty ∨ value.isEmpty then .error .nodeNotFound
    else .ok ⟨key, value, proof⟩

/-- The step loop of `verify_proof` in `src/proof.rs`: at each step the
recorded digest must equal the running digest; looking at the next step's
selector, a `0` selector folds the running digest into a single-child branch
digest, otherwise the running digest advances to this step's recorded digest. -/
def verify_steps (root_digest : Bytes) (current_hash : Bytes)
    (steps : List (Nat × Bytes)) : Result Bool :=
  match steps with
  | [] => .ok (decide (current_hash = root_digest))
  | (nibble, h) :: rest =>
      if h.isEmpty then .error .invalidProof
      else if current_hash ≠ h then .ok false
      else
        match rest with
        | [] => verify_steps root_digest current_hash rest
        | (next_nibble, _) :: _ =>
          if next_nibble = 0 then do
            let current' ← hash_branch [] [(nibble, current_hash)] []
            verify_steps root_digest current' rest
          else verify_steps root_digest h rest

/-- The static method `verify_proof` of `src/proof.rs`. -/
def verify_proof (root_digest : Bytes) (proof : MerkleProof) : Result Bool := do
  if proof.key.isEmpty then .error .invalidKey
  else if proof.proof.isEmpty then .error .invalidProof
  else do
    let current_hash ← hash_leaf proof.key proof.value
    verify_steps root_digest current_hash proof.proof

end PMT

namespace PMT

/-! ## Small rewriting helpers for the `Result` monad -/

/-- Bind on a successful `Result` computation reduces to the continuation. -/
theorem ok_bind {α β : Type} (a : α) (f : α → Result β) :
    (Except.ok a : Result α) >>= f = f a := rfl

/-- Bind on a failed `Result` computation propagates the error. -/
theorem error_bind {α β : Type} (e : TrieError) (f : α → Result β) :
    (Except.error e : Result α) >>= f = .error e := rfl

/-! ## Claim C2 -/

/-- Claim C2 (code bug): the round-trip property fails on the code.  In the
`Node::Branch` arm of `insert_at` the pattern binding `value` shadows the
inserted-value parameter, so an insert that descends through a branch stores
the branch's own value (here `None`) instead of the inserted one.  Starting
from empty, inserting keys `[1]`, `[2]`, `[3]` (the third insert descends
through the two-child branch created by the first two) makes `get([3])`
return `Ok(None)` even though `insert([3], [7])` returned `Ok`. -/
theorem C2_deep_insert_stores_stale_value :
    (do
      let t1 ← insert Trie.new [1] [9]
      let t2 ← insert t1 [2] [8]
      let t3 ← insert t2 [3] [7]
      get t3 [3]) = .ok none ∧
    (do
      let t1 ← insert Trie.new [1] [9]
      let t2 ← insert t1 [2] [8]
      insert t2 [3] [7]) =
      .ok ⟨Node.branch [] [(1, Node.leaf [1] (some [9])),
        (2, Node.leaf [2] (some [8])), (3, Node.leaf [3] none)] none⟩ :=
  ⟨rfl, rfl⟩

/-! ## Claim C4 -/

/-- Claim C4 (code bug): when the existing leaf's key is a strict prefix of
the inserted key, `insert_at` creates no child for the existing key (as the
claim says) but sets the new branch's own value to `None` — the existing
leaf's value is dropped, not carried over as the branch value.  After
`insert([1], [6])` then `insert([1,2], [5])` the branch's value is `none`
and `get([1])` returns `Ok(None)`. -/
theorem C4_strict_prefix_existing_value_dropped :
    (do
      let t1 ← insert Trie.new [1] [6]
      insert t1 [1, 2] [5]) =
      .ok ⟨Node.branch [1] [(2, Node.leaf [1, 2] (some [5]))] none⟩ ∧
    (do
      let t1 ← insert Trie.new [1] [6]
      let t2 ← insert t1 [1, 2] [5]
      get t2 [1]) = .ok none :=
  ⟨rfl, rfl⟩

/-! ## Claim C5 -/

/-- Claim C5 (code bug): in the branch-split arm of `insert_at`, the
sub-branch keeps the prefix `prefix[p..]` — the selector byte is NOT
stripped (claim expects `prefix[p+1..]`) — and the new leaf is created with
the branch's shadowed `value` (here `None`) instead of the inserted value.
After `insert([1,2],[5])`, `insert([1,3],[6])` (a branch with prefix `[1]`),
inserting `[2]` splits at position 0: the sub-branch's prefix is still `[1]`
(claim expects `[]`) and the new leaf for key `[2]` carries `none` (claim
expects `some [7]`); the unstripped prefix also breaks lookups of the old
keys, `get([1,2])` now returns `Ok(None)`. -/
theorem C5_branch_split_shape :
    (do
      let t1 ← insert Trie.new [1, 2] [5]
      let t2 ← insert t1 [1, 3] [6]
      insert t2 [2] [7]) =
      .ok ⟨Node.branch []
        [(1, Node.branch [1] [(2, Node.leaf [1, 2] (some [5])),
            (3, Node.leaf [1, 3] (some [6]))] none),
         (2, Node.leaf [2] none)] none⟩ ∧
    (do
      let t1 ← insert Trie.new [1, 2] [5]
      let t2 ← insert t1 [1, 3] [6]
      let t3 ← insert t2 [2] [7]
      get t3 [1, 2]) = .ok none :=
  ⟨rfl, rfl⟩

/-! ## Claim C6 -/

/-- Claim C6 (code bug): a deeper insert does NOT leave a branch's own value
unchanged.  Because of the shadowed `value` binder, the rewritten branch's
value is `if remaining_nibbles.len() == 1 { value } else { None }` where
`value` is the branch's old value — so whenever the remainder has length at
least 2 the branch's value is erased.  Branch `[1]` with value `some [6]`
loses that value when `[1,3,4]` is inserted (remainder `[3,4]`), and
`get([1])` returns `Ok(None)` afterwards. -/
theorem C6_deep_insert_zeroes_branch_value :
    (do
      let t1 ← insert Trie.new [1, 2] [5]
      insert t1 [1] [6]) =
      .ok ⟨Node.branch [1] [(2, Node.leaf [1, 2] (some [5]))] (some [6])⟩ ∧
    (do
      let t1 ← insert Trie.new [1, 2] [5]
      let t2 ← insert t1 [1] [6]
      insert t2 [1, 3, 4] [7]) =
      .ok ⟨Node.branch [1] [(2, Node.leaf [1, 2] (some [5])),
        (3, Node.leaf [1, 3, 4] (some [6]))] none⟩ ∧
    (do
      let t1 ← insert Trie.new [1, 2] [5]
      let t2 ← insert t1 [1] [6]
      let t3 ← insert t2 [1, 3, 4] [7]
      get t3 [1]) = .ok none :=
  ⟨rfl, rfl, rfl⟩

/-! ## Claim C10 -/

/-- Claim C10 (code bug): `insert` can panic.  When the inserted key's path
is a strict prefix of a branch's prefix, the split arm is taken with
`prefix_len = nibbles.len()`, and the unguarded `nibbles[prefix_len]` indexes
out of bounds (modelled as the `outOfBounds` error, see the file header).
Inserting `[1,2,3]` and `[1,2,4]` builds a branch with prefix `[1,2]`;
inserting `[1]` then panics instead of returning `Ok`/`Err`. -/
theorem C10_branch_split_index_panic :
    (do
      let t1 ← insert Trie.new [1, 2, 3] [5]
      let t2 ← insert t1 [1, 2, 4] [6]
      insert t2 [1] [7]) = .error .outOfBounds :=
  rfl

/-! ## Claim C1: counterexample -/

/-- Claim C1 counterexample: a trie built by two valid inserts in which key
`[1]` is present (`get` returns `some [6]`), yet
`verify_proof(root_hash(), generate_proof([1]))` returns `Ok(false)`, not
`Ok(true)`: the proof's single step carries the branch digest while the
verifier seeds its running digest with the leaf digest of the key/value
pair, and the two can never match. -/
theorem C1_counterexample :
    (do
      let t1 ← insert Trie.new [1, 2] [5]
      let t2 ← insert t1 [1] [6]
      let r ← root_hash t2
      let p ← generate_proof t2 [1]
      verify_proof r p) = .ok false ∧
    (do
      let t1 ← insert Trie.new [1, 2] [5]
      let t2 ← insert t1 [1] [6]
      get t2 [1]) = .ok (some [6]) :=
  ⟨rfl, rfl⟩

/-! ## Claim C3: counterexample -/

/-- Claim C3 counterexample: inserting the same three (key, value) pairs
`([1],[9]), ([2],[8]), ([3],[7])` in two different orders yields different
root digests (both defined), because the insert that descends through an
existing branch stores the branch's shadowed value instead of the inserted
one, so different orders leave the stale value at different leaves. -/
theorem C3_counterexample :
    (do
      let t1 ← insert Trie.new [1] [9]
      let t2 ← insert t1 [2] [8]
      let t3 ← insert t2 [3] [7]
      root_hash t3).toOption ≠
    (do
      let t1 ← insert Trie.new [3] [7]
      let t2 ← insert t1 [1] [9]
      let t3 ← insert t2 [2] [8]
      root_hash t3).toOption ∧
    (do
      let t1 ← insert Trie.new [1] [9]
      let t2 ← insert t1 [2] [8]
      let t3 ← insert t2 [3] [7]
      root_hash t3).toOption ≠ none ∧
    (do
      let t1 ← insert Trie.new [3] [7]
      let t2 ← insert t1 [1] [9]
      let t3 ← insert t2 [2] [8]
      root_hash t3).toOption ≠ none :=
  ⟨by decide, by decide, by decide⟩

/-! ## Claim C7: counterexample -/

/-- Claim C7 counterexample: a trie and a present key (`get` returns
`some [6]`) whose generated proof has three steps with selectors `[0, 1, 0]`,
whose FIRST step carries the root's digest and whose last step does not:
the steps run from the root downward, not "from the deepest matched node
toward the root ... ending at the root" as claimed. -/
theorem C7_counterexample :
    (do
      let t1 ← insert Trie.new [1, 2, 3] [5]
      let t2 ← insert t1 [1, 2] [6]
      let t3 ← insert t2 [5] [7]
      let p ← generate_proof t3 [1, 1, 2]
      let r ← root_hash t3
      pure (p.proof.map Prod.fst,
            p.proof.head?.map Prod.snd == some r,
            p.proof.getLast?.map Prod.snd == some r)) = .ok ([0, 1, 0], true, false) ∧
    (do
      let t1 ← insert Trie.new [1, 2, 3] [5]
      let t2 ← insert t1 [1, 2] [6]
      let t3 ← insert t2 [5] [7]
      get t3 [1, 1, 2]) = .ok (some [6]) :=
  ⟨rfl, rfl⟩

/-! ## Claim C8: counterexample -/

/-- Claim C8 counterexample: an absent key for which `generate_proof` does
NOT return `Err(NodeNotFound)`: with leaves `[1]` and `[2]` under a branch
with empty prefix, the key `[1,1]` is absent (`get` returns `Ok(None)`), but
`generate_proof([1,1])` succeeds — after consuming the selector, the
remaining path `[1]` coincides with the full stored key of the leaf `[1]`,
which `generate_proof_at` (unlike `get_at`) compares against the remaining
path rather than the original key. -/
theorem C8_counterexample :
    (do
      let t1 ← insert Trie.new [1] [9]
      let t2 ← insert t1 [2] [8]
      get t2 [1, 1]) = .ok none ∧
    (do
      let t1 ← insert Trie.new [1] [9]
      let t2 ← insert t1 [2] [8]
      generate_proof t2 [1, 1]).isOk = true :=
  ⟨rfl, rfl⟩

/-! ## Claim C9: counterexample -/

/-- Claim C9 counterexample: deleting `[1,3]` from the trie holding
`([1,2,9],[5])` and `([1,3],[6])` collapses the branch (prefix `[1]`) with
its single remaining child leaf (stored key `[1,2,9]`) into a leaf whose key
is rebuilt as `prefix ++ [selector] = [1,2]` — NOT the complete original key
`[1,2,9]` the child leaf stored — after which `get([1,2,9])` returns
`Ok(None)`. -/
theorem C9_counterexample :
    (do
      let t1 ← insert Trie.new [1, 2, 9] [5]
      let t2 ← insert t1 [1, 3] [6]
      delete t2 [1, 3]) = .ok (⟨Node.leaf [1, 2] (some [5])⟩, some [6]) ∧
    (do
      let t1 ← insert Trie.new [1, 2, 9] [5]
      let t2 ← insert t1 [1, 3] [6]
      let (t3, _) ← delete t2 [1, 3]
      get t3 [1, 2, 9]) = .ok none ∧
    ([1, 2] : Bytes) ≠ [1, 2, 9] :=
  ⟨rfl, rfl, by decide⟩

end PMT

namespace PMT

/-! ## General helper lemmas -/

/-- The function to_nibbles is the identity in `Result`: on an empty input it
returns `.ok []`, which equals `.ok` of the input. -/
theorem to_nibbles_eq (b : Bytes) : to_nibbles b = .ok b := by
  unfold to_nibbles
  split
  · rename_i h
    rw [List.isEmpty_iff.mp h]
  · rfl

/-- A successful leaf digest is never the empty byte string (it starts with
the 0x00 domain tag). -/
theorem hash_leaf_ok_shape (key value dg : Bytes) (h : hash_leaf key value = .ok dg) :
    dg ≠ [] := by
  unfold hash_leaf at h
  split at h
  · exact absurd h (by simp)
  · simp only [Except.ok.injEq] at h
    subst h
    simp [sha256]

/-- Verification of a one-step proof whose step digest is exactly the leaf
digest of the proof's key/value and which equals the root digest. -/
theorem verify_single_step (key value dg : Bytes) (tag : Nat) (hk : key ≠ [])
    (hdg : hash_leaf key value = .ok dg) (hne : dg ≠ []) :
    verify_proof dg ⟨key, value, [(tag, dg)]⟩ = .ok true := by
  unfold verify_proof
  rw [if_neg (by simp [List.isEmpty_iff, hk])]
  rw [if_neg (by simp)]
  dsimp only
  rw [hdg, ok_bind]
  unfold verify_steps
  rw [if_neg (by simp [List.isEmpty_iff, hne])]
  rw [if_neg (not_not_intro rfl)]
  unfold verify_steps
  simp

/-- Two sorted association lists that are permutations of each other and have
duplicate-free keys are equal. -/
theorem eq_of_perm_sorted_keys {l₁ l₂ : List (Nat × Bytes)} (hp : l₁.Perm l₂)
    (hs₁ : l₁.Sorted keyLe) (hs₂ : l₂.Sorted keyLe)
    (hnd : (l₁.map Prod.fst).Nodup) : l₁ = l₂ := by
  induction l₁ generalizing l₂ with
  | nil => exact hp.nil_eq
  | cons a t ih =>
    cases l₂ with
    | nil =>
      have := hp.length_eq
      simp at this
    | cons b t₂ =>
      have hnd' : a.1 ∉ t.map Prod.fst ∧ (t.map Prod.fst).Nodup := by
        simpa using hnd
      have hab : a = b := by
        have hbmem : b ∈ a :: t := hp.mem_iff.mpr (List.mem_cons_self b t₂)
        have hamem : a ∈ b :: t₂ := hp.mem_iff.mp (List.mem_cons_self a t)
        rcases List.mem_cons.mp hbmem with h | hbt
        · exact h.symm
        rcases List.mem_cons.mp hamem with h | hat
        · exact h
        have h₁ : keyLe a b := (List.sorted_cons.mp hs₁).1 b hbt
        have h₂ : keyLe b a := (List.sorted_cons.mp hs₂).1 a hat
        have hk : a.1 = b.1 := Nat.le_antisymm h₁ h₂
        exact absurd (hk ▸ List.mem_map_of_mem Prod.fst hbt) hnd'.1
      subst hab
      have hp' : t.Perm t₂ := hp.cons_inv
      rw [ih hp' (List.sorted_cons.mp hs₁).2 (List.sorted_cons.mp hs₂).2 hnd'.2]

/-- On a success of `generate_proof_at` with a non-empty value, the steps
appended to the accumulator begin with an entry carrying the digest of the
node the walk started from (the proof runs root-first). -/
theorem generate_proof_at_head (n : Node) (nibbles : Bytes) (v : Bytes)
    (steps acc : List (Nat × Bytes))
    (h : generate_proof_at n nibbles acc = .ok (v, steps)) (hv : v ≠ []) :
    ∃ tag dg rest, steps = acc ++ (tag, dg) :: rest ∧ hashNode n = .ok dg := by
  unfold generate_proof_at at h
  cases hh : hashNode n with
  | error e => rw [hh, error_bind] at h; exact absurd h (by simp)
  | ok dg =>
    cases n with
    | empty =>
      rw [hh, ok_bind] at h
      dsimp only at h
      simp only [Except.ok.injEq, Prod.mk.injEq] at h
      exact absurd h.1.symm hv
    | leaf key value =>
      rw [hh, ok_bind] at h
      dsimp only at h
      rw [to_nibbles_eq, ok_bind] at h
      split at h
      · simp only [Except.ok.injEq, Prod.mk.injEq] at h
        exact absurd h.1.symm hv
      · cases hidx : idx key 0 with
        | error e => rw [hidx, error_bind] at h; exact absurd h (by simp)
        | ok e0 =>
          rw [hidx, ok_bind] at h
          simp only [Except.ok.injEq, Prod.mk.injEq] at h
          exact ⟨e0, dg, [], h.2.symm, rfl⟩
    | branch pfx children value =>
      rw [hh, ok_bind] at h
      dsimp only at h
      rw [to_nibbles_eq, ok_bind] at h
      split at h
      · simp only [Except.ok.injEq, Prod.mk.injEq] at h
        exact absurd h.1.symm hv
      · split at h
        · split at h
          · simp only [Except.ok.injEq, Prod.mk.injEq] at h
            exact ⟨0, dg, [], h.2.symm, rfl⟩
          · simp only [Except.ok.injEq, Prod.mk.injEq] at h
            exact absurd h.1.symm hv
        · cases hidx : idx (List.drop (common_prefix_len pfx nibbles) nibbles) 0 with
          | error e => rw [hidx, error_bind] at h; exact absurd h (by simp)
          | ok cn =>
            rw [hidx, ok_bind] at h
            cases hpc : proofChild children cn
                (List.drop 1 (List.drop (common_prefix_len pfx nibbles) nibbles)) with
            | error e => rw [hpc, error_bind] at h; exact absurd h (by simp)
            | ok res =>
              rw [hpc, ok_bind] at h
              match res with
              | none =>
                simp only [Except.ok.injEq, Prod.mk.injEq] at h
                exact absurd h.1.symm hv
              | some (vb, cp, ch) =>
                dsimp only at h
                split at h
                · simp only [Except.ok.injEq, Prod.mk.injEq] at h
                  refine ⟨0, dg, (cn, ch) :: cp, ?_, rfl⟩
                  rw [← h.2]
                  simp
                · simp only [Except.ok.injEq, Prod.mk.injEq] at h
                  exact absurd h.1.symm hv

/-! ## Claim C1: amended theorem -/

/-- Claim C1 as amended: proof soundness holds for the one family of tries on
which generation and verification agree — a trie whose root is a single leaf
(as built by one valid insert of a non-empty value).  For such a trie,
`verify_proof(root_hash(), generate_proof(key))` returns `Ok(true)` for its
key.  (The claim's universal statement over all reachable tries and present
keys is refuted by `C1_counterexample`.) -/
theorem C1_single_leaf_proof_verifies (k v : Bytes) (hk : k ≠ [])
    (hk32 : k.length ≤ 32) (hv : v ≠ []) :
    insert Trie.new k v = .ok ⟨Node.leaf k (some v)⟩ ∧
    (do
      let t ← insert Trie.new k v
      let r ← root_hash t
      let p ← generate_proof t k
      verify_proof r p) = .ok true := by
  obtain ⟨a, tl, rfl⟩ : ∃ a tl, k = a :: tl := by
    cases k with
    | nil => exact absurd rfl hk
    | cons a tl => exact ⟨a, tl, rfl⟩
  obtain ⟨b, vt, rfl⟩ : ∃ b vt, v = b :: vt := by
    cases v with
    | nil => exact absurd rfl hv
    | cons b vt => exact ⟨b, vt, rfl⟩
  have hvk : verify_key (a :: tl) = .ok () := by
    unfold verify_key
    rw [if_neg (by simp), if_neg (by omega)]
  have hins : insert Trie.new (a :: tl) (b :: vt) =
      .ok ⟨Node.leaf (a :: tl) (some (b :: vt))⟩ := by
    unfold insert
    rw [hvk, ok_bind]
    rfl
  obtain ⟨dg, hdg⟩ : ∃ dg, hash_leaf (a :: tl) (b :: vt) = .ok dg := ⟨_, rfl⟩
  have hgp : generate_proof_at (Node.leaf (a :: tl) (some (b :: vt))) (a :: tl) [] =
      .ok (b :: vt, [(a, dg)]) := by
    unfold generate_proof_at
    rw [show hashNode (Node.leaf (a :: tl) (some (b :: vt))) =
      hash_leaf (a :: tl) (b :: vt) from rfl, hdg, ok_bind]
    dsimp only
    rw [to_nibbles_eq, ok_bind]
    rw [if_neg (not_not_intro rfl)]
    rw [show idx (a :: tl) 0 = .ok a from by unfold idx; rw [dif_pos (by simp)]; rfl]
    rfl
  have hgen : generate_proof ⟨Node.leaf (a :: tl) (some (b :: vt))⟩ (a :: tl) =
      .ok ⟨a :: tl, b :: vt, [(a, dg)]⟩ := by
    unfold generate_proof
    rw [if_neg (by simp)]
    rw [to_nibbles_eq, ok_bind]
    rw [hgp, ok_bind]
    dsimp only
    rw [if_neg (by simp)]
  refine ⟨hins, ?_⟩
  rw [hins, ok_bind]
  rw [show root_hash ⟨Node.leaf (a :: tl) (some (b :: vt))⟩ =
    hash_leaf (a :: tl) (b :: vt) from rfl, hdg, ok_bind]
  rw [hgen, ok_bind]
  exact verify_single_step _ _ _ a (by simp) hdg (hash_leaf_ok_shape _ _ _ hdg)

/-- Claim C1 witness: the amended theorem instantiated at key `[1]`,
value `[2]`. -/
theorem C1_witness :
    insert Trie.new [1] [2] = .ok ⟨Node.leaf [1] (some [2])⟩ ∧
    (do
      let t ← insert Trie.new [1] [2]
      let r ← root_hash t
      let p ← generate_proof t [1]
      verify_proof r p) = .ok true :=
  C1_single_leaf_proof_verifies [1] [2] (by decide) (by decide) (by decide)

/-! ## Claim C3: amended theorem -/

/-- Claim C3 as amended: the second half of the claim stands — `hash_branch`
returns the same digest for any permutation of its children list, provided
the selectors are pairwise distinct (as they always are for a children map);
canonical sorting by selector makes the digest independent of iteration
order.  (The first half — order-independence of whole-trie root digests — is
refuted by `C3_counterexample`; and for lists with duplicate selectors a
permutation can change the digest, since the stable sort keys only on the
selector.) -/
theorem C3_hash_branch_perm_invariant (pfx value : Bytes)
    (l l' : List (Nat × Bytes)) (hp : l.Perm l')
    (hnd : (l.map Prod.fst).Nodup) :
    hash_branch pfx l value = hash_branch pfx l' value := by
  have hsort : sortByKey l = sortByKey l' := by
    apply eq_of_perm_sorted_keys
    · exact (List.perm_insertionSort keyLe l).trans
        (hp.trans (List.perm_insertionSort keyLe l').symm)
    · exact List.sorted_insertionSort keyLe l
    · exact List.sorted_insertionSort keyLe l'
    · exact (((List.perm_insertionSort keyLe l).map Prod.fst).nodup_iff).mpr hnd
  have hemp : l.isEmpty = l'.isEmpty := by
    have := hp.length_eq
    cases l <;> cases l' <;> simp_all
  simp only [hash_branch, hemp, hsort]

/-- Claim C3 witness: the amended theorem instantiated at a two-child list
and its transposition. -/
theorem C3_witness :
    hash_branch [7] [(2, [5]), (1, [4])] [9] =
      hash_branch [7] [(1, [4]), (2, [5])] [9] :=
  C3_hash_branch_perm_invariant [7] [9] [(2, [5]), (1, [4])] [(1, [4]), (2, [5])]
    (by decide) (by decide)

/-! ## Claim C7: amended theorem -/

/-- Claim C7 as amended: the steps of a successfully generated proof are
ordered from the ROOT toward the deepest matched node, not the other way
round: the first step carries the root node's digest (tagged `0` when the
root is a traversed branch, or the leaf key's first byte when the root is
the matched leaf), and each traversed branch contributes its own digest and
then the traversed child's digest before the child's deeper steps.
Formally: on success the head of the step list carries exactly the root's
digest. -/
theorem C7_proof_steps_root_first (t : Trie) (key : Bytes) (p : MerkleProof)
    (h : generate_proof t key = .ok p) :
    ∃ tag dg rest, p.proof = (tag, dg) :: rest ∧ root_hash t = .ok dg := by
  unfold generate_proof at h
  split at h
  · exact absurd h (by simp)
  · rw [to_nibbles_eq, ok_bind] at h
    cases hgp : generate_proof_at t.root key [] with
    | error e => rw [hgp, error_bind] at h; exact absurd h (by simp)
    | ok res =>
      rw [hgp, ok_bind] at h
      match res, hgp with
      | (v, steps), hgp =>
        dsimp only at h
        split at h
        · exact absurd h (by simp)
        · rename_i hcond
          have hvne : v ≠ [] := by
            intro hveq
            exact hcond (Or.inr (by simp [hveq]))
          simp only [Except.ok.injEq] at h
          obtain ⟨tag, dg, rest, hsteps, hdg⟩ :=
            generate_proof_at_head t.root key v steps [] hgp hvne
          refine ⟨tag, dg, rest, ?_, hdg⟩
          rw [← h]
          simpa using hsteps

/-- Claim C7 witness: the amended theorem instantiated at the single-leaf
trie for key `[1]`, whose generated proof is the one-step list shown. -/
theorem C7_witness :
    ∃ tag dg rest,
      ([(1, [0, 1, 1, 1, 2])] : List (Nat × Bytes)) = (tag, dg) :: rest ∧
      root_hash ⟨Node.leaf [1] (some [2])⟩ = .ok dg :=
  C7_proof_steps_root_first ⟨Node.leaf [1] (some [2])⟩ [1]
    ⟨[1], [2], [(1, [0, 1, 1, 1, 2])]⟩ rfl

/-! ## Claim C8: amended theorem -/

/-- Claim C8 as amended: `insert`, `get` and `delete` return
`Err(InvalidKey)` for an empty key and `Err(KeyTooLong)` for a key longer
than 32 bytes, in both cases before any change to the tree (in this pure
embedding, an error means no new trie is produced, exactly mirroring the
source, which assigns `self.root` only after success); and `generate_proof`
returns `Err(InvalidKey)` for an empty key.  (The claim's remaining part —
`generate_proof` returns `Err(NodeNotFound)` for every absent key — is
refuted by `C8_counterexample`.) -/
theorem C8_validation_errors (t : Trie) (k v : Bytes) :
    (k = [] → insert t k v = .error .invalidKey ∧ get t k = .error .invalidKey ∧
      delete t k = .error .invalidKey ∧ generate_proof t k = .error .invalidKey) ∧
    (k.length > 32 → insert t k v = .error .keyTooLong ∧ get t k = .error .keyTooLong ∧
      delete t k = .error .keyTooLong) := by
  constructor
  · rintro rfl
    exact ⟨rfl, rfl, rfl, rfl⟩
  · intro h32
    have hne : k.isEmpty = false := by
      cases k with
      | nil => simp at h32
      | cons a tl => rfl
    have hvk : verify_key k = .error .keyTooLong := by
      simp [verify_key, hne, h32]
    refine ⟨?_, ?_, ?_⟩ <;>
      simp only [insert, get, delete, hvk, error_bind]

/-- Claim C8 witness: the amended theorem instantiated at the empty key and
at a 33-byte key. -/
theorem C8_witness :
    insert Trie.new [] [5] = .error .invalidKey ∧
    insert Trie.new (List.replicate 33 0) [5] = .error .keyTooLong :=
  ⟨((C8_validation_errors Trie.new [] [5]).1 rfl).1,
   ((C8_validation_errors Trie.new (List.replicate 33 0) [5]).2 (by decide)).1⟩

/-! ## Claim C9: amended theorem -/

/-- Claim C9 as amended: when delete leaves a branch with no value and
exactly one remaining child leaf, the collapsed leaf's key is rebuilt as
`parentPrefix ++ [selector]` — which coincides with the child's stored
complete key exactly when that key is one byte longer than the parent
prefix (as in the claim's two-key scenario, but not in general, see
`C9_counterexample`).  Consequently, after inserting two keys `[x, b1]`,
`[x, b2]` sharing the one-byte-shorter prefix `[x]` and deleting the first,
the trie equals the single leaf for the surviving pair and the root digest
equals that of a trie built from empty by inserting only the surviving
pair. -/
theorem C9_two_key_collapse (x b1 b2 : Nat) (v1 v2 : Bytes) (hne : b1 ≠ b2) :
    (do
      let t1 ← insert Trie.new [x, b1] v1
      let t2 ← insert t1 [x, b2] v2
      delete t2 [x, b1]) = .ok (⟨Node.leaf [x, b2] (some v2)⟩, some v1) ∧
    insert Trie.new [x, b2] v2 = .ok ⟨Node.leaf [x, b2] (some v2)⟩ ∧
    (do
      let t1 ← insert Trie.new [x, b1] v1
      let t2 ← insert t1 [x, b2] v2
      let (t3, _) ← delete t2 [x, b1]
      root_hash t3) =
    (do
      let t ← insert Trie.new [x, b2] v2
      root_hash t) := by
  have hcp : common_prefix_len [x, b1] [x, b2] = 1 := by
    simp [common_prefix_len, hne]
  have hins1 : insert Trie.new [x, b1] v1 = .ok ⟨Node.leaf [x, b1] (some v1)⟩ := rfl
  have hins2 : insert ⟨Node.leaf [x, b1] (some v1)⟩ [x, b2] v2 =
      .ok ⟨Node.branch [x] [(b1, Node.leaf [x, b1] (some v1)),
        (b2, Node.leaf [x, b2] (some v2))] none⟩ := by
    simp [insert, insertAt, verify_key, to_nibbles, idx, mapInsert,
      hcp, hne, hashNode, hashChildren, hash_leaf, hash_branch, ok_bind, error_bind]
  have hcp2 : common_prefix_len [x] [x, b1] = 1 := by
    simp [common_prefix_len]
  have hdel : delete ⟨Node.branch [x] [(b1, Node.leaf [x, b1] (some v1)),
      (b2, Node.leaf [x, b2] (some v2))] none⟩ [x, b1] =
      .ok (⟨Node.leaf [x, b2] (some v2)⟩, some v1) := by
    simp [delete, delete_at, deleteChild, verify_key, to_nibbles, idx, mapInsert,
      hcp2, hne, hashNode, hashChildren, hash_leaf, hash_branch, ok_bind, error_bind]
  have hins3 : insert Trie.new [x, b2] v2 = .ok ⟨Node.leaf [x, b2] (some v2)⟩ := rfl
  refine ⟨?_, hins3, ?_⟩
  · rw [hins1, ok_bind, hins2, ok_bind, hdel]
  · rw [hins1, ok_bind, hins2, ok_bind, hdel, ok_bind, hins3, ok_bind]

/-- Claim C9 witness: the amended theorem instantiated at the spec's own
scenario, keys `[120, 1]` and `[120, 2]` (i.e. "x\x01", "x\x02"). -/
theorem C9_witness :
    (do
      let t1 ← insert Trie.new [120, 1] [5]
      let t2 ← insert t1 [120, 2] [6]
      delete t2 [120, 1]) = .ok (⟨Node.leaf [120, 2] (some [6])⟩, some [5]) ∧
    insert Trie.new [120, 2] [6] = .ok ⟨Node.leaf [120, 2] (some [6])⟩ ∧
    (do
      let t1 ← insert Trie.new [120, 1] [5]
      let t2 ← insert t1 [120, 2] [6]
      let (t3, _) ← delete t2 [120, 1]
      root_hash t3) =
    (do
      let t ← insert Trie.new [120, 2] [6]
      root_hash t) :=
  C9_two_key_collapse 120 1 2 [5] [6] (by decide)

end PMT
